import Mathlib

/-!
Shallow embedding of the WSL Screen Snipper extension's change-detection
and deduplicating ingestion core (src/extension.ts).

Modelling conventions:
- The module-level mutable variables of extension.ts (`screenshotDir`,
  `fileWatcher`, `pollingInterval`, `processedFiles`, `lastSavedImagePath`,
  `lastScreenshotCheck`) become the fields of `ExtState`; stateful functions
  take and return an `ExtState`.
- Timestamps (`Date.now()`, `stats.mtime.getTime()`) are `Nat` milliseconds.
- Filesystem syscall outcomes are data: a directory listing is a
  `List DirEntry` with a per-entry `statOk` flag for `fs.statSync` during the
  scan, a `readdirOk` flag for `fs.readdirSync`, and the state of a candidate
  file at ingestion time is a `FileStatus` (existence, regular-file flag,
  size, whether `statSync` succeeds, whether `copyFileSync` succeeds).
- The destination filesystem is `World.destFiles` (files existing under the
  destination directory) plus `World.destDirExists`; `fs.rmSync(dir,
  recursive)` removes every file whose path lies under `dir`.
- Functions that perform the copy additionally return `Option String`: the
  source path for which `fs.copyFileSync` was invoked in that call (whether
  or not the copy succeeded), `none` when no copy call happened.
-/

/-- JavaScript `String.prototype.endsWith`, modelled on the character list. -/
def strEndsWith (s p : String) : Bool :=
  List.isSuffixOf p.data s.data

/-- Path-prefix test (used to model which files `fs.rmSync(dir, recursive)`
removes), modelled on the character list. -/
def strStartsWith (s p : String) : Bool :=
  List.isPrefixOf p.data s.data

/-- Extension filter used identically by both detectors
(`filename.endsWith('.png') || filename.endsWith('.jpg') || filename.endsWith('.jpeg')`),
extension.ts lines 342 and 380. -/
def isQualifying (filename : String) : Bool :=
  strEndsWith filename ".png" || strEndsWith filename ".jpg" || strEndsWith filename ".jpeg"

/-- Node `path.join(dir, name)` for the simple shapes the extension uses. -/
def pathJoin (dir name : String) : String :=
  dir ++ "/" ++ name

/-- Node `path.basename`: the final path component. -/
def pathBasename (p : String) : String :=
  (p.splitOn "/").getLastD p

/-- The module-level mutable state of extension.ts (lines 6-12). -/
structure ExtState where
  screenshotDir : Option String
  watcherActive : Bool
  pollingActive : Bool
  processedFiles : List String
  lastSavedImagePath : Option String
  lastScreenshotCheck : Nat
deriving Repr, DecidableEq

/-- One entry of the source-directory listing as the poll scanner sees it:
name, modification time, and whether `fs.statSync` succeeds on it during
this scan. -/
structure DirEntry where
  name : String
  mtime : Nat
  statOk : Bool
deriving Repr, DecidableEq

/-- A snapshot of the monitored Windows screenshots directory for one poll
cycle: its path, its listing, and whether `fs.readdirSync` succeeds. -/
structure DirSnapshot where
  path : String
  listing : List DirEntry
  readdirOk : Bool

/-- The state of a candidate file at ingestion time, as observed by
`handleNewScreenshot` / `copyScreenshotToWSL`: whether it exists, whether
`fs.statSync` succeeds, whether it is a regular file, its size, and whether
`fs.copyFileSync` succeeds. -/
structure FileStatus where
  fsExists : Bool
  statOk : Bool
  isFile : Bool
  size : Nat
  copyOk : Bool
deriving Repr, DecidableEq

/-- The destination-side filesystem: files existing under the destination
directory, and whether the destination directory itself exists. -/
structure World where
  destFiles : List String
  destDirExists : Bool
deriving Repr, DecidableEq

/-- `copyScreenshotToWSL` (extension.ts lines 281-305): bails out if
`screenshotDir` is not initialized; otherwise computes the target path from
the source basename and invokes `fs.copyFileSync`; on success publishes the
target path (clipboard is fire-and-forget and not modelled), on a thrown
error reports and returns `undefined`. Returns (result path, updated world,
source path if a copy call was made). -/
def copyScreenshotToWSL (sourceFile : String) (st : FileStatus) (s : ExtState)
    (w : World) : Option String × World × Option String :=
  match s.screenshotDir with
  | none => (none, w, none)
  | some dir =>
    let targetPath := pathJoin dir (pathBasename sourceFile)
    if st.copyOk then
      (some targetPath, { w with destFiles := targetPath :: w.destFiles }, some sourceFile)
    else
      (none, w, some sourceFile)

/-- `handleNewScreenshot` (extension.ts lines 415-444): the ingestion
pipeline. Dedup gate on `processedFiles`; existence gate; stat (may throw,
caught by the surrounding try); regular-file and nonzero-size gate; mark as
processed; copy; on successful copy set `lastSavedImagePath`. Returns the
new state, the new world, and the source path if `fs.copyFileSync` was
invoked. -/
def handleNewScreenshot (filePath : String) (st : FileStatus) (s : ExtState)
    (w : World) : ExtState × World × Option String :=
  if s.processedFiles.contains filePath then
    (s, w, none)
  else if !st.fsExists then
    (s, w, none)
  else if !st.statOk then
    (s, w, none)
  else if !st.isFile || st.size == 0 then
    (s, w, none)
  else
    let s1 := { s with processedFiles := filePath :: s.processedFiles }
    match copyScreenshotToWSL filePath st s1 w with
    | (some wslPath, w1, copied) =>
      ({ s1 with lastSavedImagePath := some wslPath }, w1, copied)
    | (none, w1, copied) => (s1, w1, copied)

/-- One step of the scanner's running-max loop (extension.ts lines 379-399):
the accumulator is the pair (`newestTime`, `newestFile`); a non-qualifying
name is skipped, a stat failure is skipped, and a qualifying file with
mtime strictly greater than `newestTime` replaces the accumulator. -/
def scanStep (acc : Nat × Option DirEntry) (f : DirEntry) : Nat × Option DirEntry :=
  if isQualifying f.name then
    if f.statOk then
      if f.mtime > acc.1 then (f.mtime, some f) else acc
    else acc
  else acc

/-- The running-max pass of `checkForNewScreenshots` over one directory
listing, starting from `newestTime = lastScreenshotCheck`,
`newestFile = null`; yields the selected candidate, if any. -/
def scanNewest (files : List DirEntry) (lastCheck : Nat) : Option DirEntry :=
  (files.foldl scanStep (lastCheck, none)).2

/-- `checkForNewScreenshots` (extension.ts lines 370-413): one poll cycle.
A directory-read failure is caught and only logged (state and world are
unchanged). Otherwise the running-max scan runs; if it finds a candidate,
`lastScreenshotCheck` is updated to the candidate's mtime first, and then
the candidate is handed to `handleNewScreenshot`, whose ingestion-time view
of the file is given by the oracle `statusOf`. -/
def checkForNewScreenshots (dir : DirSnapshot) (statusOf : String → FileStatus)
    (s : ExtState) (w : World) : ExtState × World × Option String :=
  if !dir.readdirOk then
    (s, w, none)
  else
    match scanNewest dir.listing s.lastScreenshotCheck with
    | none => (s, w, none)
    | some f =>
      let s1 := { s with lastScreenshotCheck := f.mtime }
      let fullPath := pathJoin dir.path f.name
      handleNewScreenshot fullPath (statusOf fullPath) s1 w

/-- The watcher callback's scheduling condition (extension.ts lines 341-350):
a candidate is scheduled (after the 1000 ms settle delay, not modelled as
time) exactly when the event type is `'rename'`, a filename was supplied,
and the filename passes the extension filter. -/
def watcherSchedules (eventType : String) (filename : Option String) : Bool :=
  match filename with
  | none => false
  | some f => eventType == "rename" && isQualifying f

/-- `startFileMonitoring` (extension.ts lines 320-368), restricted to its
effect on the modelled state: fails early when no source path is configured
or the directory does not exist; otherwise initializes
`lastScreenshotCheck` to the current time, installs the watcher when
`fs.watch` does not throw, and starts the poll timer. -/
def startFileMonitoring (now : Nat) (pathConfigured dirFound watchOk : Bool)
    (s : ExtState) : ExtState × Bool :=
  if !pathConfigured then
    (s, false)
  else if !dirFound then
    (s, false)
  else
    ({ s with lastScreenshotCheck := now
              watcherActive := watchOk
              pollingActive := true }, true)

/-- `cleanup` (extension.ts lines 467-495): closes the watcher if present,
cancels the poll timer if present, clears `processedFiles`, and — when
auto-cleanup is configured, a destination directory was set up and still
exists — removes the destination directory recursively (every file under
it). -/
def cleanup (autoCleanup : Bool) (s : ExtState) (w : World) : ExtState × World :=
  let s1 := { s with watcherActive := false
                     pollingActive := false
                     processedFiles := [] }
  match s.screenshotDir with
  | none => (s1, w)
  | some dir =>
    if autoCleanup && w.destDirExists then
      (s1, { destFiles := w.destFiles.filter (fun p => !strStartsWith p (dir ++ "/"))
             destDirExists := false })
    else
      (s1, w)

/-- The paste interceptor's decision (extension.ts lines 446-464): when a
last saved path exists and a terminal is active, that path is sent to the
terminal; otherwise the normal paste fallback runs (`none`). -/
def interceptPaste (s : ExtState) (activeTerminal : Bool) : Option String :=
  match s.lastSavedImagePath with
  | none => none
  | some p => if activeTerminal then some p else none

/-- A detection event of one monitoring session: either the watcher's
deferred candidate reaching `handleNewScreenshot`, or one tick of the poll
timer running `checkForNewScreenshots`. -/
inductive Event where
  | watcher (filePath : String) (st : FileStatus)
  | poll (dir : DirSnapshot) (statusOf : String → FileStatus)

/-- Dispatch one detection event against the session state. -/
def stepEvent (e : Event) (s : ExtState) (w : World) : ExtState × World × Option String :=
  match e with
  | Event.watcher filePath st => handleNewScreenshot filePath st s w
  | Event.poll dir statusOf => checkForNewScreenshots dir statusOf s w

/-- The number of `fs.copyFileSync` invocations whose source is `P` over a
sequence of detection events. -/
def transfersFor (P : String) : List Event → ExtState → World → Nat
  | [], _, _ => 0
  | e :: rest, s, w =>
    match stepEvent e s w with
    | (s1, w1, copied) =>
      (if copied = some P then 1 else 0) + transfersFor P rest s1 w1


/-! ### Helper lemmas on the ingestion pipeline -/

/-- A candidate already in the processed set is discarded with no effect. -/
theorem handle_dedup_noop (p : String) (st : FileStatus) (s : ExtState) (w : World)
    (h : s.processedFiles.contains p = true) :
    handleNewScreenshot p st s w = (s, w, none) := by
  have hm : p ∈ s.processedFiles := by simpa using h
  simp [handleNewScreenshot, hm]

/-- The processed set after ingestion is either unchanged or grows by the
candidate path, and the other state components that `handleNewScreenshot`
never writes are preserved. -/
theorem handle_state_shape (p : String) (st : FileStatus) (s : ExtState) (w : World) :
    ((handleNewScreenshot p st s w).1.processedFiles = s.processedFiles ∨
      (handleNewScreenshot p st s w).1.processedFiles = p :: s.processedFiles) ∧
    (handleNewScreenshot p st s w).1.lastScreenshotCheck = s.lastScreenshotCheck ∧
    (handleNewScreenshot p st s w).1.screenshotDir = s.screenshotDir ∧
    (handleNewScreenshot p st s w).1.watcherActive = s.watcherActive ∧
    (handleNewScreenshot p st s w).1.pollingActive = s.pollingActive := by
  by_cases c1 : s.processedFiles.contains p = true <;>
  by_cases c2 : st.fsExists = true <;>
  by_cases c3 : st.statOk = true <;>
  by_cases c4 : st.isFile = true <;>
  by_cases c5 : st.size = 0 <;>
  cases hd : s.screenshotDir <;>
  by_cases c6 : st.copyOk = true <;>
  simp_all [handleNewScreenshot, copyScreenshotToWSL]

/-- Membership in the processed set is preserved by ingestion. -/
theorem handle_processed_mono (p x : String) (st : FileStatus) (s : ExtState) (w : World)
    (h : s.processedFiles.contains x = true) :
    (handleNewScreenshot p st s w).1.processedFiles.contains x = true := by
  rcases (handle_state_shape p st s w).1 with h1 | h1 <;>
    rw [h1] <;> simp [List.contains_cons] at h ⊢ <;> simp [h]

/-- If a copy call happened, its source is the candidate path and that path
is in the processed set afterwards. -/
theorem handle_copied_spec (p : String) (st : FileStatus) (s : ExtState) (w : World)
    (q : String) (h : (handleNewScreenshot p st s w).2.2 = some q) :
    q = p ∧ (handleNewScreenshot p st s w).1.processedFiles.contains p = true := by
  by_cases c1 : s.processedFiles.contains p = true <;>
  by_cases c2 : st.fsExists = true <;>
  by_cases c3 : st.statOk = true <;>
  by_cases c4 : st.isFile = true <;>
  by_cases c5 : st.size = 0 <;>
  cases hd : s.screenshotDir <;>
  by_cases c6 : st.copyOk = true <;>
  simp_all [handleNewScreenshot, copyScreenshotToWSL]

/-- A candidate already in the processed set never leads to a copy call. -/
theorem handle_dedup_no_copy (p : String) (st : FileStatus) (s : ExtState) (w : World)
    (h : s.processedFiles.contains p = true) :
    (handleNewScreenshot p st s w).2.2 ≠ some p := by
  rw [handle_dedup_noop p st s w h]
  simp

/-! ### Helper lemmas on the running-max scan -/

/-- Fold invariant, soundness direction: along the scanner loop, the tracked
time equals the watermark while no file is tracked, and otherwise equals the
tracked file's mtime; a tracked file is qualifying, stat-able, strictly
beyond the watermark, and comes from the list or the initial accumulator. -/
theorem scanFold_sound (l : List DirEntry) (wm : Nat) :
    ∀ (t : Nat) (acc : Option DirEntry),
      (acc = none → t = wm) →
      (∀ f, acc = some f → t = f.mtime ∧ wm < f.mtime ∧
        isQualifying f.name = true ∧ f.statOk = true) →
      (((l.foldl scanStep (t, acc)).2 = none → (l.foldl scanStep (t, acc)).1 = wm) ∧
        ∀ f, (l.foldl scanStep (t, acc)).2 = some f →
          (l.foldl scanStep (t, acc)).1 = f.mtime ∧ wm < f.mtime ∧
          isQualifying f.name = true ∧ f.statOk = true ∧ (f ∈ l ∨ acc = some f)) := by
  induction l with
  | nil =>
    intro t acc h0 h1
    refine ⟨fun h => h0 h, fun f hf => ?_⟩
    rcases h1 f hf with ⟨ha, hb, hc, hd⟩
    exact ⟨ha, hb, hc, hd, Or.inr hf⟩
  | cons a l ih =>
    intro t acc h0 h1
    simp only [List.foldl_cons]
    by_cases hq : isQualifying a.name = true
    · by_cases hs : a.statOk = true
      · by_cases hm : a.mtime > t
        · have hstep : scanStep (t, acc) a = (a.mtime, some a) := by
            simp [scanStep, hq, hs, hm]
          rw [hstep]
          have hwm : wm ≤ t := by
            cases hacc : acc with
            | none => exact (h0 hacc).ge
            | some g => exact (le_of_lt (h1 g hacc).2.1).trans (h1 g hacc).1.ge
          have := ih a.mtime (some a) (by intro hc; exact absurd hc (by simp))
            (by
              intro f hf
              injection hf with hf
              subst hf
              exact ⟨rfl, lt_of_le_of_lt hwm hm, hq, hs⟩)
          refine ⟨this.1, fun f hf => ?_⟩
          rcases this.2 f hf with ⟨ha2, hb2, hc2, hd2, he2⟩
          refine ⟨ha2, hb2, hc2, hd2, ?_⟩
          rcases he2 with he2 | he2
          · exact Or.inl (List.mem_cons_of_mem a he2)
          · injection he2 with he2
            exact Or.inl (by simp [he2])
        · have hstep : scanStep (t, acc) a = (t, acc) := by
            simp [scanStep, hq, hs, hm]
          rw [hstep]
          have := ih t acc h0 h1
          refine ⟨this.1, fun f hf => ?_⟩
          rcases this.2 f hf with ⟨ha2, hb2, hc2, hd2, he2⟩
          refine ⟨ha2, hb2, hc2, hd2, ?_⟩
          rcases he2 with he2 | he2
          · exact Or.inl (List.mem_cons_of_mem a he2)
          · exact Or.inr he2
      · have hstep : scanStep (t, acc) a = (t, acc) := by
          simp [scanStep, hq, hs]
        rw [hstep]
        have := ih t acc h0 h1
        refine ⟨this.1, fun f hf => ?_⟩
        rcases this.2 f hf with ⟨ha2, hb2, hc2, hd2, he2⟩
        refine ⟨ha2, hb2, hc2, hd2, ?_⟩
        rcases he2 with he2 | he2
        · exact Or.inl (List.mem_cons_of_mem a he2)
        · exact Or.inr he2
    · have hstep : scanStep (t, acc) a = (t, acc) := by
        simp [scanStep, hq]
      rw [hstep]
      have := ih t acc h0 h1
      refine ⟨this.1, fun f hf => ?_⟩
      rcases this.2 f hf with ⟨ha2, hb2, hc2, hd2, he2⟩
      refine ⟨ha2, hb2, hc2, hd2, ?_⟩
      rcases he2 with he2 | he2
      · exact Or.inl (List.mem_cons_of_mem a he2)
      · exact Or.inr he2

/-- Fold invariant, maximality direction: the tracked time never decreases
along the loop and ends at least as large as the mtime of every qualifying,
stat-able file of the list. -/
theorem scanFold_max (l : List DirEntry) :
    ∀ (t : Nat) (acc : Option DirEntry),
      t ≤ (l.foldl scanStep (t, acc)).1 ∧
      ∀ g ∈ l, isQualifying g.name = true → g.statOk = true →
        g.mtime ≤ (l.foldl scanStep (t, acc)).1 := by
  induction l with
  | nil => intro t acc; simp
  | cons a l ih =>
    intro t acc
    simp only [List.foldl_cons]
    have hstep_fst : t ≤ (scanStep (t, acc) a).1 ∧
        (isQualifying a.name = true → a.statOk = true → a.mtime ≤ (scanStep (t, acc) a).1) := by
      unfold scanStep
      by_cases hq : isQualifying a.name = true <;>
      by_cases hs : a.statOk = true <;>
      by_cases hm : t < a.mtime <;>
      simp [hq, hs, hm] <;> omega
    obtain ⟨hmono, hmax⟩ := ih (scanStep (t, acc) a).1 (scanStep (t, acc) a).2
    constructor
    · exact hstep_fst.1.trans hmono
    · intro g hg hgq hgs
      rcases List.mem_cons.mp hg with hg | hg
      · subst hg
        exact (hstep_fst.2 hgq hgs).trans hmono
      · exact hmax g hg hgq hgs

/-- A selected candidate is a qualifying, stat-able member of the listing
with mtime strictly beyond the watermark, maximal among all qualifying
stat-able members. -/
theorem scanNewest_some_spec (l : List DirEntry) (wm : Nat) (f : DirEntry)
    (h : scanNewest l wm = some f) :
    f ∈ l ∧ isQualifying f.name = true ∧ f.statOk = true ∧ wm < f.mtime ∧
      ∀ g ∈ l, isQualifying g.name = true → g.statOk = true → g.mtime ≤ f.mtime := by
  have hs := scanFold_sound l wm wm none (fun _ => rfl) (by intro f hf; cases hf)
  have hx := hs.2 f h
  rcases hx with ⟨ht, hwm, hq, hok, hmem⟩
  refine ⟨?_, hq, hok, hwm, ?_⟩
  · rcases hmem with hmem | hmem
    · exact hmem
    · cases hmem
  · intro g hg hgq hgs
    have := (scanFold_max l wm none).2 g hg hgq hgs
    rw [show (l.foldl scanStep (wm, none)).1 = f.mtime from ht] at this
    exact this

/-- If the scan selects nothing, every qualifying stat-able file of the
listing has mtime at most the watermark. -/
theorem scanNewest_none_spec (l : List DirEntry) (wm : Nat)
    (h : scanNewest l wm = none) :
    ∀ g ∈ l, isQualifying g.name = true → g.statOk = true → g.mtime ≤ wm := by
  have hs := scanFold_sound l wm wm none (fun _ => rfl) (by intro f hf; cases hf)
  have ht := hs.1 h
  intro g hg hgq hgs
  have := (scanFold_max l wm none).2 g hg hgq hgs
  rw [ht] at this
  exact this

/-- Completeness: if some qualifying stat-able file lies strictly beyond the
watermark, the scan selects a candidate. -/
theorem scanNewest_complete (l : List DirEntry) (wm : Nat) (g : DirEntry)
    (hg : g ∈ l) (hgq : isQualifying g.name = true) (hgs : g.statOk = true)
    (hgm : wm < g.mtime) :
    ∃ f, scanNewest l wm = some f := by
  cases h : scanNewest l wm with
  | none =>
    exact absurd (scanNewest_none_spec l wm h g hg hgq hgs) (by omega)
  | some f => exact ⟨f, rfl⟩

/-- Files whose stat fails are transparent to the scan: the result equals
the scan of the stat-able sublist. -/
theorem scanNewest_skip_statFail (l : List DirEntry) (wm : Nat) :
    scanNewest l wm = scanNewest (l.filter (fun f => f.statOk)) wm := by
  unfold scanNewest
  suffices h : ∀ acc : Nat × Option DirEntry,
      l.foldl scanStep acc = (l.filter (fun f => f.statOk)).foldl scanStep acc by
    rw [h]
  induction l with
  | nil => intro acc; rfl
  | cons a l ih =>
    intro acc
    by_cases hs : a.statOk = true
    · simp only [List.foldl_cons, List.filter_cons, hs, if_true]
      exact ih (scanStep acc a)
    · have hstep : scanStep acc a = acc := by
        unfold scanStep
        by_cases hq : isQualifying a.name = true <;> simp [hq, hs]
      simp only [List.foldl_cons, List.filter_cons, hstep, hs]
      simp only [Bool.false_eq_true, if_false]
      exact ih acc

/-! ### Helper lemmas on poll cycles and event sequences -/

/-- A poll cycle preserves membership in the processed set. -/
theorem check_processed_mono (dir : DirSnapshot) (statusOf : String → FileStatus)
    (s : ExtState) (w : World) (x : String)
    (h : s.processedFiles.contains x = true) :
    (checkForNewScreenshots dir statusOf s w).1.processedFiles.contains x = true := by
  unfold checkForNewScreenshots
  by_cases hr : dir.readdirOk = true
  · simp only [hr, Bool.not_true, Bool.false_eq_true, if_false]
    cases hscan : scanNewest dir.listing s.lastScreenshotCheck with
    | none => exact h
    | some f => exact handle_processed_mono _ x _ _ w (by simpa using h)
  · simp only [Bool.not_eq_true] at hr
    simp only [hr, Bool.not_false, if_true]
    exact h

/-- If a poll cycle performed a copy call for source `q`, then `q` is in the
processed set afterwards. -/
theorem check_copied_processed (dir : DirSnapshot) (statusOf : String → FileStatus)
    (s : ExtState) (w : World) (q : String)
    (h : (checkForNewScreenshots dir statusOf s w).2.2 = some q) :
    (checkForNewScreenshots dir statusOf s w).1.processedFiles.contains q = true := by
  unfold checkForNewScreenshots at h ⊢
  by_cases hr : dir.readdirOk = true
  · simp only [hr, Bool.not_true, Bool.false_eq_true, if_false] at h ⊢
    cases hscan : scanNewest dir.listing s.lastScreenshotCheck with
    | none =>
      rw [hscan] at h
      exact Option.noConfusion h
    | some f =>
      rw [hscan] at h
      obtain ⟨hq, hmem⟩ := handle_copied_spec (pathJoin dir.path f.name)
        (statusOf (pathJoin dir.path f.name)) { s with lastScreenshotCheck := f.mtime } w q h
      rw [hq]
      exact hmem
  · simp only [Bool.not_eq_true] at hr
    simp only [hr, Bool.not_false, if_true] at h
    exact Option.noConfusion h
/-- A poll cycle never performs a copy call for a source path already in the
processed set. -/
theorem check_contains_no_copy (dir : DirSnapshot) (statusOf : String → FileStatus)
    (s : ExtState) (w : World) (q : String)
    (h : s.processedFiles.contains q = true) :
    (checkForNewScreenshots dir statusOf s w).2.2 ≠ some q := by
  unfold checkForNewScreenshots
  by_cases hr : dir.readdirOk = true
  · simp only [hr, Bool.not_true, Bool.false_eq_true, if_false]
    cases hscan : scanNewest dir.listing s.lastScreenshotCheck with
    | none => simp
    | some f =>
      intro hc
      obtain ⟨hq, _⟩ := handle_copied_spec _ _ _ w q hc
      subst hq
      exact handle_dedup_no_copy _ _ _ w (by simpa using h) hc
  · simp only [Bool.not_eq_true] at hr
    simp only [hr, Bool.not_false, if_true]
    simp

/-- Any detection event preserves membership in the processed set. -/
theorem step_processed_mono (e : Event) (s : ExtState) (w : World) (x : String)
    (h : s.processedFiles.contains x = true) :
    (stepEvent e s w).1.processedFiles.contains x = true := by
  cases e with
  | watcher p st => exact handle_processed_mono p x st s w h
  | poll dir statusOf => exact check_processed_mono dir statusOf s w x h

/-- After a detection event that performed a copy call for source `q`, `q`
is in the processed set. -/
theorem step_copied_processed (e : Event) (s : ExtState) (w : World) (q : String)
    (h : (stepEvent e s w).2.2 = some q) :
    (stepEvent e s w).1.processedFiles.contains q = true := by
  cases e with
  | watcher p st =>
    obtain ⟨hq, hmem⟩ := handle_copied_spec p st s w q h
    rw [hq]
    exact hmem
  | poll dir statusOf => exact check_copied_processed dir statusOf s w q h

/-- No detection event performs a copy call for a source path already in
the processed set. -/
theorem step_contains_no_copy (e : Event) (s : ExtState) (w : World) (q : String)
    (h : s.processedFiles.contains q = true) :
    (stepEvent e s w).2.2 ≠ some q := by
  cases e with
  | watcher p st =>
    intro hc
    obtain ⟨hq, _⟩ := handle_copied_spec p st s w q hc
    subst hq
    exact handle_dedup_no_copy _ st s w h hc
  | poll dir statusOf => exact check_contains_no_copy dir statusOf s w q h

/-- Once a path is in the processed set, no copy call for it ever happens
again over any sequence of further detection events. -/
theorem transfersFor_zero_of_processed (P : String) (evs : List Event) :
    ∀ (s : ExtState) (w : World), s.processedFiles.contains P = true →
      transfersFor P evs s w = 0 := by
  induction evs with
  | nil => intro s w _; rfl
  | cons e rest ih =>
    intro s w h
    unfold transfersFor
    have hno : (stepEvent e s w).2.2 ≠ some P := step_contains_no_copy e s w P h
    have hmono := step_processed_mono e s w P h
    rcases hstep : stepEvent e s w with ⟨s1, w1, copied⟩
    rw [hstep] at hno hmono
    simp only [hno, if_neg]
    simpa using ih s1 w1 hmono

/-- Across any sequence of detection events, at most one copy call with
source `P` is performed. -/
theorem transfersFor_le_one (P : String) (evs : List Event) :
    ∀ (s : ExtState) (w : World), transfersFor P evs s w ≤ 1 := by
  induction evs with
  | nil => intro s w; simp [transfersFor]
  | cons e rest ih =>
    intro s w
    unfold transfersFor
    rcases hstep : stepEvent e s w with ⟨s1, w1, copied⟩
    by_cases hc : copied = some P
    · have h22 : (stepEvent e s w).2.2 = some P := by rw [hstep]; exact hc
      have hmem := step_copied_processed e s w P h22
      rw [hstep] at hmem
      have hzero := transfersFor_zero_of_processed P rest s1 w1 hmem
      simp [hc, hzero]
    · simpa [hc] using ih s1 w1

/-! ### Helper lemmas on the watermark and teardown -/

/-- A poll cycle either leaves the watermark unchanged or raises it to the
mtime of the candidate selected by the scan, which is strictly greater. -/
theorem check_wm_spec (dir : DirSnapshot) (statusOf : String → FileStatus)
    (s : ExtState) (w : World) :
    (checkForNewScreenshots dir statusOf s w).1.lastScreenshotCheck
        = s.lastScreenshotCheck ∨
    (∃ f, scanNewest dir.listing s.lastScreenshotCheck = some f ∧
      (checkForNewScreenshots dir statusOf s w).1.lastScreenshotCheck = f.mtime ∧
      s.lastScreenshotCheck < f.mtime) := by
  unfold checkForNewScreenshots
  by_cases hr : dir.readdirOk = true
  · simp only [hr, Bool.not_true, Bool.false_eq_true, if_false]
    cases hscan : scanNewest dir.listing s.lastScreenshotCheck with
    | none => exact Or.inl rfl
    | some f =>
      refine Or.inr ⟨f, rfl, ?_, (scanNewest_some_spec _ _ _ hscan).2.2.2.1⟩
      exact (handle_state_shape (pathJoin dir.path f.name)
        (statusOf (pathJoin dir.path f.name))
        { s with lastScreenshotCheck := f.mtime } w).2.1
  · simp only [Bool.not_eq_true] at hr
    simp [hr]

/-- The watermark never decreases over a poll cycle. -/
theorem check_wm_mono (dir : DirSnapshot) (statusOf : String → FileStatus)
    (s : ExtState) (w : World) :
    s.lastScreenshotCheck ≤
      (checkForNewScreenshots dir statusOf s w).1.lastScreenshotCheck := by
  rcases check_wm_spec dir statusOf s w with h | ⟨f, _, h1, h2⟩
  · omega
  · omega

/-- Teardown clears the watcher, the poll timer and the processed set, and
touches no other state component. -/
theorem cleanup_clears (a : Bool) (s : ExtState) (w : World) :
    (cleanup a s w).1.watcherActive = false ∧
    (cleanup a s w).1.pollingActive = false ∧
    (cleanup a s w).1.processedFiles = [] ∧
    (cleanup a s w).1.lastSavedImagePath = s.lastSavedImagePath ∧
    (cleanup a s w).1.lastScreenshotCheck = s.lastScreenshotCheck ∧
    (cleanup a s w).1.screenshotDir = s.screenshotDir := by
  unfold cleanup
  cases hd : s.screenshotDir
  · simp
  · by_cases hc : (a && w.destDirExists) = true <;> simp [hc]

/-- Teardown is idempotent. -/
theorem cleanup_idem (a : Bool) (s : ExtState) (w : World) :
    cleanup a (cleanup a s w).1 (cleanup a s w).2 = cleanup a s w := by
  unfold cleanup
  cases hd : s.screenshotDir
  · simp
  · by_cases hc : (a && w.destDirExists) = true <;> simp [hc]

/-- A candidate whose file is gone, is not a regular file, or has size zero
is discarded with no state change, no world change and no copy call. -/
theorem handle_invalid_noop (p : String) (st : FileStatus) (s : ExtState) (w : World)
    (h : st.fsExists = false ∨ (st.statOk = true ∧ (st.isFile = false ∨ st.size = 0))) :
    handleNewScreenshot p st s w = (s, w, none) := by
  by_cases c1 : s.processedFiles.contains p = true
  · exact handle_dedup_noop p st s w c1
  · rcases h with h | ⟨h2, h3 | h3⟩ <;>
      simp_all [handleNewScreenshot]

/-- A candidate passing every gate is marked as processed (whatever the copy
outcome is). -/
theorem handle_pass_marks (p : String) (st : FileStatus) (s : ExtState) (w : World)
    (h1 : s.processedFiles.contains p = false) (h2 : st.fsExists = true)
    (h3 : st.statOk = true) (h4 : st.isFile = true) (h5 : st.size ≠ 0) :
    (handleNewScreenshot p st s w).1.processedFiles = p :: s.processedFiles := by
  cases hd : s.screenshotDir <;> by_cases hc : st.copyOk = true <;>
    simp_all [handleNewScreenshot, copyScreenshotToWSL]

/-- A candidate passing every gate, with the destination directory
provisioned, triggers a copy call for it. -/
theorem handle_pass_copies (p : String) (st : FileStatus) (s : ExtState) (w : World)
    (d : String) (hd : s.screenshotDir = some d)
    (h1 : s.processedFiles.contains p = false) (h2 : st.fsExists = true)
    (h3 : st.statOk = true) (h4 : st.isFile = true) (h5 : st.size ≠ 0) :
    (handleNewScreenshot p st s w).2.2 = some p := by
  by_cases hc : st.copyOk = true <;>
    simp_all [handleNewScreenshot, copyScreenshotToWSL]

/-- A candidate passing every gate with a failing copy leaves
`lastSavedImagePath` unchanged (the failure is only reported). -/
theorem handle_fail_keeps_lastSaved (p : String) (st : FileStatus) (s : ExtState)
    (w : World) (hc : st.copyOk = false)
    (h1 : s.processedFiles.contains p = false) (h2 : st.fsExists = true)
    (h3 : st.statOk = true) (h4 : st.isFile = true) (h5 : st.size ≠ 0) :
    (handleNewScreenshot p st s w).1.lastSavedImagePath = s.lastSavedImagePath := by
  cases hd : s.screenshotDir <;>
    simp_all [handleNewScreenshot, copyScreenshotToWSL]

/-! ### Claim theorems -/

/-- C1: For every file path P and every interleaving of detections of P by
the event-based watcher and the poll-based scanner within one monitoring
session, at most one transfer (copy call) is performed for P; and once P is
in the processed set, every later candidate for P is discarded by
`handleNewScreenshot` with no side effect at all. -/
theorem C1_dedup_at_most_one_transfer (P : String) (evs : List Event)
    (s : ExtState) (w : World) :
    transfersFor P evs s w ≤ 1 ∧
    (s.processedFiles.contains P = true →
      ∀ st : FileStatus, handleNewScreenshot P st s w = (s, w, none)) :=
  ⟨transfersFor_le_one P evs s w,
   fun h st => handle_dedup_noop P st s w h⟩

/-- Witness for C1 at a concrete interleaving: the same path detected by
the watcher twice and by a poll cycle, with the dedup hypothesis
discharged on a concrete state. -/
theorem C1_witness :
    (transfersFor "/mnt/c/s/a.png"
        [Event.watcher "/mnt/c/s/a.png"
           ⟨true, true, true, 5, true⟩,
         Event.watcher "/mnt/c/s/a.png"
           ⟨true, true, true, 5, true⟩,
         Event.poll ⟨"/mnt/c/s", [⟨"a.png", 7, true⟩], true⟩
           (fun _ => ⟨true, true, true, 5, true⟩)]
        ⟨some "/ws/.tmp", true, true, [], none, 3⟩
        ⟨[], true⟩ ≤ 1) ∧
    (ExtState.processedFiles ⟨some "/ws/.tmp", true, true, ["/mnt/c/s/a.png"], none, 3⟩).contains
        "/mnt/c/s/a.png" = true ∧
    handleNewScreenshot "/mnt/c/s/a.png" ⟨true, true, true, 5, true⟩
        ⟨some "/ws/.tmp", true, true, ["/mnt/c/s/a.png"], none, 3⟩ ⟨[], true⟩
      = (⟨some "/ws/.tmp", true, true, ["/mnt/c/s/a.png"], none, 3⟩, ⟨[], true⟩, none) := by
  refine ⟨(C1_dedup_at_most_one_transfer "/mnt/c/s/a.png" _ _ _).1, by decide, ?_⟩
  exact (C1_dedup_at_most_one_transfer "/mnt/c/s/a.png" []
    ⟨some "/ws/.tmp", true, true, ["/mnt/c/s/a.png"], none, 3⟩ ⟨[], true⟩).2
    (by decide) ⟨true, true, true, 5, true⟩

/-- C2: The watermark `lastScreenshotCheck` is monotonically non-decreasing
over the session: monitoring start initializes it to the current time; a
poll cycle either leaves it unchanged or raises it to the selected
candidate's mtime, strictly greater than its previous value; and neither
the ingestion pipeline nor teardown mutates it. -/
theorem C2_watermark_monotone (now : Nat) (watchOk : Bool) (s0 : ExtState)
    (dir : DirSnapshot) (statusOf : String → FileStatus) (s : ExtState) (w : World)
    (p : String) (st : FileStatus) (a : Bool) :
    ((startFileMonitoring now true true watchOk s0).1.lastScreenshotCheck = now ∧
      (startFileMonitoring now true true watchOk s0).2 = true) ∧
    s.lastScreenshotCheck ≤ (checkForNewScreenshots dir statusOf s w).1.lastScreenshotCheck ∧
    ((checkForNewScreenshots dir statusOf s w).1.lastScreenshotCheck
        = s.lastScreenshotCheck ∨
      (∃ f, scanNewest dir.listing s.lastScreenshotCheck = some f ∧
        (checkForNewScreenshots dir statusOf s w).1.lastScreenshotCheck = f.mtime ∧
        s.lastScreenshotCheck < f.mtime)) ∧
    (handleNewScreenshot p st s w).1.lastScreenshotCheck = s.lastScreenshotCheck ∧
    (cleanup a s w).1.lastScreenshotCheck = s.lastScreenshotCheck := by
  refine ⟨⟨rfl, rfl⟩, check_wm_mono dir statusOf s w, check_wm_spec dir statusOf s w,
    (handle_state_shape p st s w).2.1, (cleanup_clears a s w).2.2.2.2.1⟩

/-- C3: A single poll cycle over any directory snapshot produces at most
one candidate: a selected file is a qualifying, stat-able member of the
listing with mtime strictly above the watermark and maximal among all
qualifying stat-able files; nothing is selected exactly when no qualifying
stat-able file lies strictly above the watermark; and for three qualifying
files at mtimes t1 < t2 < t3 all above the watermark, only the t3 file is
selected. -/
theorem C3_newest_selection (l : List DirEntry) (wm : Nat) :
    (∀ f, scanNewest l wm = some f →
      f ∈ l ∧ isQualifying f.name = true ∧ f.statOk = true ∧ wm < f.mtime ∧
      ∀ g ∈ l, isQualifying g.name = true → g.statOk = true → g.mtime ≤ f.mtime) ∧
    (scanNewest l wm = none ↔
      ∀ g ∈ l, isQualifying g.name = true → g.statOk = true → g.mtime ≤ wm) ∧
    (∀ e1 e2 e3 : DirEntry,
      isQualifying e1.name = true → isQualifying e2.name = true →
      isQualifying e3.name = true →
      e1.statOk = true → e2.statOk = true → e3.statOk = true →
      wm < e1.mtime → e1.mtime < e2.mtime → e2.mtime < e3.mtime →
      scanNewest [e1, e2, e3] wm = some e3) := by
  refine ⟨fun f hf => scanNewest_some_spec l wm f hf, ⟨scanNewest_none_spec l wm, ?_⟩, ?_⟩
  · intro hall
    cases hsc : scanNewest l wm with
    | none => rfl
    | some f =>
      obtain ⟨hmem, hq, hok, hwm, _⟩ := scanNewest_some_spec l wm f hsc
      exact absurd (hall f hmem hq hok) (by omega)
  · intro e1 e2 e3 hq1 hq2 hq3 hs1 hs2 hs3 hm1 hm2 hm3
    simp [scanNewest, scanStep, hq1, hq2, hq3, hs1, hs2, hs3, hm1, hm2, hm3]

/-- Witness for C3 at a concrete snapshot: three qualifying files at mtimes
10 < 20 < 30 over watermark 5; the scan selects the mtime-30 file. -/
theorem C3_witness :
    scanNewest
      [⟨"a.png", 10, true⟩, ⟨"b.jpg", 20, true⟩, ⟨"c.jpeg", 30, true⟩] 5
      = some ⟨"c.jpeg", 30, true⟩ ∧
    isQualifying "c.jpeg" = true ∧ (5 : Nat) < 30 := by
  refine ⟨?_, by decide, by decide⟩
  exact (C3_newest_selection
      [⟨"a.png", 10, true⟩, ⟨"b.jpg", 20, true⟩, ⟨"c.jpeg", 30, true⟩] 5).2.2
    ⟨"a.png", 10, true⟩ ⟨"b.jpg", 20, true⟩ ⟨"c.jpeg", 30, true⟩
    (by decide) (by decide) (by decide) rfl rfl rfl
    (by decide) (by decide) (by decide)

/-- C4: In the ingestion pipeline, the candidate path is inserted into the
processed set before the copy is attempted, and a copy failure does not
remove it: after a failed transfer the path is still in the processed set,
`lastSavedImagePath` is not overwritten, and any later candidate for the
same path is a complete no-op (never retried this session). -/
theorem C4_mark_then_act (p : String) (st : FileStatus) (s : ExtState) (w : World)
    (h1 : s.processedFiles.contains p = false) (h2 : st.fsExists = true)
    (h3 : st.statOk = true) (h4 : st.isFile = true) (h5 : st.size ≠ 0) :
    (handleNewScreenshot p st s w).1.processedFiles = p :: s.processedFiles ∧
    (st.copyOk = false →
      (handleNewScreenshot p st s w).1.processedFiles.contains p = true ∧
      (handleNewScreenshot p st s w).1.lastSavedImagePath = s.lastSavedImagePath ∧
      ∀ (st2 : FileStatus) (w2 : World),
        handleNewScreenshot p st2 (handleNewScreenshot p st s w).1 w2
          = ((handleNewScreenshot p st s w).1, w2, none)) := by
  have hmark := handle_pass_marks p st s w h1 h2 h3 h4 h5
  refine ⟨hmark, fun hc =>
    ⟨?_, handle_fail_keeps_lastSaved p st s w hc h1 h2 h3 h4 h5, ?_⟩⟩
  · rw [hmark]
    simp [List.contains_cons]
  · intro st2 w2
    apply handle_dedup_noop
    rw [hmark]
    simp [List.contains_cons]

/-- Witness for C4: a concrete fresh candidate whose copy fails. -/
theorem C4_witness :
    (handleNewScreenshot "/mnt/c/s/a.png" ⟨true, true, true, 4, false⟩
        ⟨some "/ws/.tmp", true, true, [], none, 0⟩ ⟨[], true⟩).1.processedFiles
      = ["/mnt/c/s/a.png"] ∧
    (handleNewScreenshot "/mnt/c/s/a.png" ⟨true, true, true, 4, false⟩
        ⟨some "/ws/.tmp", true, true, [], none, 0⟩ ⟨[], true⟩).1.lastSavedImagePath
      = none := by
  have h := C4_mark_then_act "/mnt/c/s/a.png" ⟨true, true, true, 4, false⟩
    ⟨some "/ws/.tmp", true, true, [], none, 0⟩ ⟨[], true⟩
    (by decide) rfl rfl rfl (by decide)
  exact ⟨h.1, (h.2 rfl).2.1⟩

/-- C5: A candidate whose file no longer exists, is not a regular file, or
has size zero is discarded silently: no copy call, no state or world
change, and in particular no processed-set entry; hence a later candidate
for the same path with positive size passes the gates, is marked and gets
a copy call. -/
theorem C5_validity_gate (p : String) (s : ExtState) (w : World) :
    (∀ st : FileStatus,
      st.fsExists = false ∨ (st.statOk = true ∧ (st.isFile = false ∨ st.size = 0)) →
      handleNewScreenshot p st s w = (s, w, none)) ∧
    (∀ (st : FileStatus) (d : String),
      s.processedFiles.contains p = false → s.screenshotDir = some d →
      st.fsExists = true → st.statOk = true → st.isFile = true → 0 < st.size →
      (handleNewScreenshot p st s w).2.2 = some p ∧
      (handleNewScreenshot p st s w).1.processedFiles = p :: s.processedFiles) := by
  refine ⟨fun st h => handle_invalid_noop p st s w h,
    fun st d h1 hd h2 h3 h4 h5 => ?_⟩
  have h6 : st.size ≠ 0 := by omega
  exact ⟨handle_pass_copies p st s w d hd h1 h2 h3 h4 h6,
         handle_pass_marks p st s w h1 h2 h3 h4 h6⟩

/-- Witness for C5: the same path first observed at size 0 (discarded
silently), then at size 4 (ingested with a copy call). -/
theorem C5_witness :
    handleNewScreenshot "/mnt/c/s/a.png" ⟨true, true, true, 0, true⟩
        ⟨some "/ws/.tmp", true, true, [], none, 0⟩ ⟨[], true⟩
      = (⟨some "/ws/.tmp", true, true, [], none, 0⟩, ⟨[], true⟩, none) ∧
    (handleNewScreenshot "/mnt/c/s/a.png" ⟨true, true, true, 4, true⟩
        ⟨some "/ws/.tmp", true, true, [], none, 0⟩ ⟨[], true⟩).2.2
      = some "/mnt/c/s/a.png" := by
  have h := C5_validity_gate "/mnt/c/s/a.png"
    ⟨some "/ws/.tmp", true, true, [], none, 0⟩ ⟨[], true⟩
  exact ⟨h.1 ⟨true, true, true, 0, true⟩ (Or.inr ⟨rfl, Or.inr rfl⟩),
         (h.2 ⟨true, true, true, 4, true⟩ "/ws/.tmp" (by decide) rfl rfl rfl rfl
           (by decide)).1⟩

/-- C6: Whenever a poll cycle selects a candidate, the watermark is set to
that candidate's mtime before ingestion runs, so it holds afterwards for
every possible ingestion-time view of the file (deduplicated, discarded by
the validity gate, copy success or copy failure alike). -/
theorem C6_watermark_update_unconditional (dir : DirSnapshot) (s : ExtState)
    (w : World) (f : DirEntry) (hr : dir.readdirOk = true)
    (hscan : scanNewest dir.listing s.lastScreenshotCheck = some f) :
    ∀ statusOf : String → FileStatus,
      (checkForNewScreenshots dir statusOf s w).1.lastScreenshotCheck = f.mtime := by
  intro statusOf
  unfold checkForNewScreenshots
  simp only [hr, Bool.not_true, Bool.false_eq_true, if_false, hscan]
  exact (handle_state_shape (pathJoin dir.path f.name)
    (statusOf (pathJoin dir.path f.name))
    { s with lastScreenshotCheck := f.mtime } w).2.1

/-- Witness for C6: a concrete snapshot whose scan selects the mtime-10
file; the watermark becomes 10 both under a view where ingestion succeeds
and under a view where the file has vanished. -/
theorem C6_witness :
    (checkForNewScreenshots ⟨"/mnt/c/s", [⟨"a.png", 10, true⟩], true⟩
        (fun _ => ⟨true, true, true, 4, true⟩)
        ⟨some "/ws/.tmp", true, true, [], none, 3⟩
        ⟨[], true⟩).1.lastScreenshotCheck = 10 ∧
    (checkForNewScreenshots ⟨"/mnt/c/s", [⟨"a.png", 10, true⟩], true⟩
        (fun _ => ⟨false, true, true, 4, true⟩)
        ⟨some "/ws/.tmp", true, true, [], none, 3⟩
        ⟨[], true⟩).1.lastScreenshotCheck = 10 := by
  have h := C6_watermark_update_unconditional
    ⟨"/mnt/c/s", [⟨"a.png", 10, true⟩], true⟩
    ⟨some "/ws/.tmp", true, true, [], none, 3⟩ ⟨[], true⟩
    ⟨"a.png", 10, true⟩ rfl (by decide)
  exact ⟨h (fun _ => ⟨true, true, true, 4, true⟩),
         h (fun _ => ⟨false, true, true, 4, true⟩)⟩

/-- C7: Scanner error containment: a per-file stat failure skips only that
file — the running-max scan equals the scan of the stat-able sublist, and a
stat-able qualifying file above the watermark is still selected in the same
cycle — while a directory-listing failure aborts only that cycle, leaving
state and world unchanged with no copy call; neither failure is modelled as
terminating the session. -/
theorem C7_error_containment (l : List DirEntry) (wm : Nat) (dir : DirSnapshot)
    (statusOf : String → FileStatus) (s : ExtState) (w : World) :
    scanNewest l wm = scanNewest (l.filter (fun f => f.statOk)) wm ∧
    (∀ g ∈ l, isQualifying g.name = true → g.statOk = true → wm < g.mtime →
      ∃ f, scanNewest l wm = some f) ∧
    (dir.readdirOk = false → checkForNewScreenshots dir statusOf s w = (s, w, none)) := by
  refine ⟨scanNewest_skip_statFail l wm,
    fun g hg hgq hgs hgm => scanNewest_complete l wm g hg hgq hgs hgm,
    fun hr => ?_⟩
  unfold checkForNewScreenshots
  simp [hr]

/-- Witness for C7: a listing where the newest file's stat fails; the
older stat-able file is still selected in the same cycle, and a failing
directory read leaves a concrete state untouched. -/
theorem C7_witness :
    scanNewest [⟨"new.png", 20, false⟩, ⟨"old.png", 10, true⟩] 5
      = scanNewest
          ([⟨"new.png", 20, false⟩, ⟨"old.png", 10, true⟩].filter (fun f => f.statOk)) 5 ∧
    (∃ f, scanNewest [⟨"new.png", 20, false⟩, ⟨"old.png", 10, true⟩] 5 = some f) ∧
    checkForNewScreenshots ⟨"/mnt/c/s", [⟨"a.png", 10, true⟩], false⟩
        (fun _ => ⟨true, true, true, 4, true⟩)
        ⟨some "/ws/.tmp", true, true, [], none, 3⟩ ⟨[], true⟩
      = (⟨some "/ws/.tmp", true, true, [], none, 3⟩, ⟨[], true⟩, none) := by
  have h1 := C7_error_containment
    [⟨"new.png", 20, false⟩, ⟨"old.png", 10, true⟩] 5
    ⟨"/mnt/c/s", [⟨"a.png", 10, true⟩], false⟩
    (fun _ => ⟨true, true, true, 4, true⟩)
    ⟨some "/ws/.tmp", true, true, [], none, 3⟩ ⟨[], true⟩
  refine ⟨h1.1, ?_, h1.2.2 rfl⟩
  exact h1.2.1 ⟨"old.png", 10, true⟩ (by decide) (by decide) rfl (by decide)

/-- C8: Extension filtering is case-sensitive in both detectors: names
ending in lower-case `.png`, `.jpg`, `.jpeg` qualify; `screenshot.PNG` and
`screenshot.gif` never qualify, are never selected by the poll scanner and
never scheduled by the watcher. -/
theorem C8_case_sensitive_filter :
    isQualifying "screenshot.png" = true ∧
    isQualifying "screenshot.jpg" = true ∧
    isQualifying "screenshot.jpeg" = true ∧
    isQualifying "screenshot.PNG" = false ∧
    isQualifying "screenshot.gif" = false ∧
    (∀ (l : List DirEntry) (wm : Nat) (f : DirEntry),
      scanNewest l wm = some f → isQualifying f.name = true) ∧
    (∀ et fn : String, watcherSchedules et (some fn) = true → isQualifying fn = true) ∧
    (∀ et : String,
      watcherSchedules et (some "screenshot.PNG") = false ∧
      watcherSchedules et (some "screenshot.gif") = false) := by
  have hPNG : isQualifying "screenshot.PNG" = false := by decide
  have hgif : isQualifying "screenshot.gif" = false := by decide
  refine ⟨by decide, by decide, by decide, hPNG, hgif,
    fun l wm f hf => (scanNewest_some_spec l wm f hf).2.1,
    fun et fn h => ?_, fun et => ?_⟩
  · simp only [watcherSchedules, Bool.and_eq_true] at h
    exact h.2
  · exact ⟨by simp [watcherSchedules, hPNG], by simp [watcherSchedules, hgif]⟩

/-- Witness for C8: the scanner hypothesis discharged on a one-file
snapshot and the watcher hypothesis discharged on a rename event. -/
theorem C8_witness :
    isQualifying "x.png" = true ∧ isQualifying "b.jpg" = true := by
  constructor
  · exact C8_case_sensitive_filter.2.2.2.2.2.1 [⟨"x.png", 9, true⟩] 0
      ⟨"x.png", 9, true⟩ (by decide)
  · exact C8_case_sensitive_filter.2.2.2.2.2.2.1 "rename" "b.jpg" (by decide)

/-- C9: Teardown is idempotent and total: one call deactivates the watcher
subscription and the poll timer and empties the processed set — on any
state, including one where monitoring never started — and running it a
second time produces the identical state and world. -/
theorem C9_teardown_idempotent (a : Bool) (s : ExtState) (w : World) :
    (cleanup a s w).1.watcherActive = false ∧
    (cleanup a s w).1.pollingActive = false ∧
    (cleanup a s w).1.processedFiles = [] ∧
    cleanup a (cleanup a s w).1 (cleanup a s w).2 = cleanup a s w :=
  ⟨(cleanup_clears a s w).1, (cleanup_clears a s w).2.1,
   (cleanup_clears a s w).2.2.1, cleanup_idem a s w⟩

/-- C10: Teardown leaves `lastSavedImagePath` unchanged, so the paste
interceptor behaves identically after cleanup; and when auto-cleanup is
enabled and the destination directory existed, the interceptor still
observes the last published destination path even though that file has
been removed from the destination filesystem. -/
theorem C10_last_path_survives_teardown (a : Bool) (s : ExtState) (w : World) :
    (cleanup a s w).1.lastSavedImagePath = s.lastSavedImagePath ∧
    (∀ term : Bool, interceptPaste (cleanup a s w).1 term = interceptPaste s term) ∧
    (∀ p d : String, s.lastSavedImagePath = some p → s.screenshotDir = some d →
      strStartsWith p (d ++ "/") = true → w.destDirExists = true →
      interceptPaste (cleanup true s w).1 true = some p ∧
      (cleanup true s w).2.destFiles.contains p = false) := by
  have hframe := (cleanup_clears a s w).2.2.2.1
  refine ⟨hframe, fun term => ?_, fun p d hp hd hpre hde => ?_⟩
  · unfold interceptPaste
    rw [hframe]
  · have hframe1 := (cleanup_clears true s w).2.2.2.1
    constructor
    · unfold interceptPaste
      rw [hframe1, hp]
      rfl
    · have hdest : (cleanup true s w).2.destFiles
          = w.destFiles.filter (fun q => !strStartsWith q (d ++ "/")) := by
        unfold cleanup
        simp [hd, hde]
      rw [hdest]
      cases hc : (w.destFiles.filter (fun q => !strStartsWith q (d ++ "/"))).contains p with
      | false => rfl
      | true =>
        exfalso
        have hmem : p ∈ w.destFiles.filter (fun q => !strStartsWith q (d ++ "/")) := by
          simpa using hc
        have := (List.mem_filter.mp hmem).2
        rw [hpre] at this
        simp at this

/-- Witness for C10: a concrete session whose published path lies under the
destination directory; after auto-cleanup the interceptor still returns it
while it is gone from the destination file list. -/
theorem C10_witness :
    interceptPaste
        (cleanup true ⟨some "/ws/.tmp", true, true, [], some "/ws/.tmp/a.png", 9⟩
          ⟨["/ws/.tmp/a.png"], true⟩).1 true
      = some "/ws/.tmp/a.png" ∧
    (cleanup true ⟨some "/ws/.tmp", true, true, [], some "/ws/.tmp/a.png", 9⟩
        ⟨["/ws/.tmp/a.png"], true⟩).2.destFiles.contains "/ws/.tmp/a.png" = false := by
  exact (C10_last_path_survives_teardown true
      ⟨some "/ws/.tmp", true, true, [], some "/ws/.tmp/a.png", 9⟩
      ⟨["/ws/.tmp/a.png"], true⟩).2.2
    "/ws/.tmp/a.png" "/ws/.tmp" rfl rfl (by decide) rfl
